import Mathlib

/-!
Verification of the NoctiForge worker core: a shallow embedding of the
container-lifecycle and invocation-registry subsystem
(services/worker/src — function_invocations.rs, container.rs, config.rs,
background.rs, server/mod.rs) together with theorems settling the frozen
claims about it.

Conventions of the embedding:
  * the process-wide `HashMap<String, Arc<Invocation>>` registry and the
    on-disk bundle store are modelled as association lists keyed by
    strings (the map semantics of HashMap: lookup finds the entry,
    insert overwrites, remove erases);
  * fallible Rust functions returning `Result<T>` become `Except WError T`
    (or, where the caller's state on failure matters, a product carrying
    an `Option WError` alongside the unchanged state);
  * blocking filesystem effects are explicit state passing over a `Disk`
    value; injected I/O outcomes (sandbox status on reattach, start and
    remove success) are supplied by a `WorldOps` record of oracles;
  * a few callees live outside the vendored sources (crate::path,
    worker::spec, `ProccesContainer::load`, and the external url /
    std-net parsers); each such definition carries a doc comment starting
    with "Modelled from the spec:" and follows the spec's words.
-/

namespace NoctiForge

/-- Error taxonomy of the worker core (spec section 7). -/
inductive WError where
  | alreadyExists
  | notFound
  | ioFailure
  | sandboxStartFailure
  | invalidAddress
  deriving DecidableEq

/-- In-memory model of an on-disk file tree: a regular file with its byte
content, or a directory with a list of named children. -/
inductive FsTree where
  | file (content : String)
  | dir (entries : List (String × FsTree))

/-- Point lookup in an association list (the map semantics of a HashMap
read: the entry for the key, if any). -/
def alookup {α : Type} : List (String × α) → String → Option α
  | [], _ => none
  | (k, v) :: rest, key => if k = key then some v else alookup rest key

/-- Removal from an association list (the map semantics of HashMap::remove:
every entry for the key disappears). -/
def aerase {α : Type} : List (String × α) → String → List (String × α)
  | [], _ => []
  | p :: rest, key => if p.1 = key then aerase rest key else p :: aerase rest key

/-- Insertion into an association list (the map semantics of
HashMap::insert: the new binding unconditionally replaces any prior one). -/
def ainsert {α : Type} (l : List (String × α)) (key : String) (v : α) :
    List (String × α) :=
  (key, v) :: aerase l key

/-! ## Data model (function_invocations.rs, container.rs) -/

/-- Registry record binding an instance to its sandbox endpoint
(function_invocations.rs, struct Invocation: a URL field). URLs are
modelled as their string form. -/
structure Invocation where
  url : String
  deriving DecidableEq

/-- The registry map instance-id to Invocation held inside
FunctionInvocations (functions field, a HashMap under a RwLock). -/
abbrev Registry := List (String × Invocation)

/-- The on-disk bundle store: bundle path to bundle tree. A path exists on
disk exactly when it carries an entry. -/
abbrev Disk := List (String × FsTree)

/-- Status of a sandbox as reported by the container runtime
(libcontainer's ContainerStatus, an external crate: modelled as its
variant set). -/
inductive ContainerStatus where
  | creating
  | created
  | running
  | stopped
  | paused
  deriving DecidableEq

/-- The loaded container handle wrapped by ProccesContainer: the bundle
path and the reported status (the two ContainerWrapper capabilities the
worker reads). -/
structure MContainer where
  bundle : String
  status : ContainerStatus
  deriving DecidableEq

/-- User/group identity fed to the spec builder (worker::spec,
SysUserParms with uid and gid). -/
structure SysUserParms where
  uid : Nat
  gid : Nat
  deriving DecidableEq

/-- Modelled from the spec: get_instence_path (crate::path, not under
src/) resolves the deterministic, content-addressed bundle path for an
instance id; the repository test test_default_path_resolver pins it to
/var/lib/noctiforge/native_worker/run/<id>. -/
def get_instence_path (instance_id : String) : String :=
  "/var/lib/noctiforge/native_worker/run/" ++ instance_id

/-- Modelled from the spec: get_spec (worker::spec, not under src/) is a
pure, deterministic builder of the static runtime specification from the
identity (spec section 4.1). -/
structure RuntimeSpec where
  uid : Nat
  gid : Nat
  deriving DecidableEq

/-- Modelled from the spec: get_spec builds the runtime specification as
a pure function of the user/group identity. -/
def get_spec (sys_user : SysUserParms) : RuntimeSpec :=
  ⟨sys_user.uid, sys_user.gid⟩

/-- Modelled from the spec: serde_json pretty serialization of the
runtime spec (external crate) — an injective textual encoding. -/
def serde_json_to_vec_pretty (spec : RuntimeSpec) : String :=
  "spec uid=" ++ toString spec.uid ++ " gid=" ++ toString spec.gid

/-- Modelled from the spec: copy_dir_all (crate::path, not under src/)
recursively copies the handler tree — directories created as
encountered, regular files copied byte-for-byte (spec section 4.2 step
4); a full recursive copy of a tree is the tree itself. -/
def copy_dir_all (src : FsTree) : FsTree := src

/-- Add a fresh named child to a directory node (the provisioner only
ever inserts into directories it has just created; file nodes are left
unchanged). Children keep creation order. -/
def FsTree.addEntry : FsTree → String → FsTree → FsTree
  | .dir es, name, t => .dir (es ++ [(name, t)])
  | .file c, _, _ => .file c

/-- Apply a function to the named child of a directory node. -/
def FsTree.modifyEntry : FsTree → String → (FsTree → FsTree) → FsTree
  | .dir es, name, f => .dir (es.map fun p => if p.1 = name then (p.1, f p.2) else p)
  | .file c, _, _ => .file c

/-- Injected outcomes of the blocking I/O the worker performs: the status
a reattached sandbox reports, whether starting it succeeds, and whether
removing its bundle directory succeeds. -/
structure WorldOps where
  status : String → ContainerStatus
  startOk : String → Bool
  removeOk : String → Bool

/-! ## Process container (container.rs) -/

namespace ProccesContainer

/-- ProccesContainer::create_rootfs: resolve the deterministic bundle
path; bail if it already exists (before any write); then create the
bundle directory, write config.json from the serialized spec, create
rootfs, recursively copy the handler into rootfs/app, and create the
empty rootfs/run. Returns the result together with the disk state after
the call. -/
def create_rootfs (disk : Disk) (instance_id : String) (handle_bin : FsTree)
    (sys_user : SysUserParms) : Except WError String × Disk :=
  let path := get_instence_path instance_id
  if (alookup disk path).isSome then
    (.error .alreadyExists, disk)
  else
    let spec := get_spec sys_user
    let bundle : FsTree := .dir []
    let bundle := bundle.addEntry "config.json"
      (.file (serde_json_to_vec_pretty spec))
    let bundle := bundle.addEntry "rootfs" (.dir [])
    let bundle := bundle.modifyEntry "rootfs"
      (fun r => r.addEntry "app" (copy_dir_all handle_bin))
    let bundle := bundle.modifyEntry "rootfs"
      (fun r => r.addEntry "run" (.dir []))
    (.ok path, ainsert disk path bundle)

/-- The characters of a candidate URL that precede the first "://", when
that separator occurs. -/
def schemeChars : List Char → Option (List Char)
  | [] => none
  | c :: rest =>
    if c = ':' ∧ rest.take 2 = ['/', '/'] then some []
    else (schemeChars rest).map (c :: ·)

/-- Modelled from the spec: URL parsing (the external url crate): a
string parses as a URL when a nonempty alphabetic scheme precedes
"://"; a valid input is returned as given. -/
def parseUrl (s : String) : Option String :=
  match schemeChars s.data with
  | some scheme =>
    if scheme ≠ [] ∧ scheme.all Char.isAlpha then some s else none
  | none => none

/-- ProccesContainer::get_url: format unix://<bundle>/rootfs/run/app.sock
from the container's bundle path and parse it as a URL; no I/O. -/
def get_url (bundle : String) : Except WError String :=
  let sock_path := "unix://" ++ bundle ++ "/rootfs/run/app.sock"
  match parseUrl sock_path with
  | some url => .ok url
  | none => .error .invalidAddress

/-- ProccesContainer::cleanup: if the bundle directory exists, remove it
recursively (remove_dir_all, whose success is injected through removeOk);
a missing directory is a silent no-op. -/
def cleanup (disk : Disk) (bundle : String) (removeOk : Bool) :
    Except WError Disk :=
  if (alookup disk bundle).isSome then
    if removeOk then .ok (aerase disk bundle) else .error .ioFailure
  else
    .ok disk

/-- Modelled from the spec: ProccesContainer::load(root_path, instance_id)
(called by FunctionInvocations::delete but not among the vendored
sources): reattaches from the deterministic bundle path for the id (spec
sections 4.3/4.4) — loading fails with NotFound when the bundle is
missing on disk; a sandbox whose status is not running is started, which
may fail; a running one is returned as-is. -/
def load (ops : WorldOps) (disk : Disk) (instance_id : String) :
    Except WError MContainer :=
  let path := get_instence_path instance_id
  if (alookup disk path).isSome then
    let st := ops.status instance_id
    if st ≠ .running then
      if ops.startOk instance_id then .ok ⟨path, .running⟩
      else .error .sandboxStartFailure
    else .ok ⟨path, st⟩
  else .error .notFound

/-- Abstract container backend handed to try_from_with_ops (the
ContainerOps trait object): load a container description from a path,
start a container (returning its post-start state). -/
structure ContainerOps where
  load_container : String → Except WError MContainer
  start_container : MContainer → Except WError MContainer

/-- ProccesContainer::try_from_with_ops: load the container from the
path; if its status is not Running, start it; otherwise return the
handle as-is. The second component counts how many times
start_container was invoked. -/
def try_from_with_ops (ops : ContainerOps) (value : String) :
    Except WError MContainer × Nat :=
  match ops.load_container value with
  | .error e => (.error e, 0)
  | .ok container =>
    if container.status ≠ .running then
      match ops.start_container container with
      | .error e => (.error e, 1)
      | .ok started => (.ok started, 1)
    else (.ok container, 0)

end ProccesContainer

/-! ## Function invocation registry (function_invocations.rs) -/

namespace FunctionInvocations

/-- FunctionInvocations::get: point lookup of the shared Invocation for
an instance id; no side effects. -/
def get (functions : Registry) (instance_id : String) : Option Invocation :=
  alookup functions instance_id

/-- FunctionInvocations::get_all: snapshot copy of the whole mapping. -/
def get_all (functions : Registry) : Registry :=
  functions

/-- FunctionInvocations::insert: construct a new Invocation around the
url and store it, unconditionally overwriting any prior entry for the
id; the new Invocation is also returned. -/
def insert (functions : Registry) (instance_id : String) (url : String) :
    Registry × Invocation :=
  let new_invocation : Invocation := ⟨url⟩
  (ainsert functions instance_id new_invocation, new_invocation)

/-- FunctionInvocations::delete: reattach the container via
ProccesContainer::load, call cleanup on it, and only then remove the
registry entry; an error in either step returns before the registry is
touched. The result carries the error (if any) together with the disk
and registry after the call. -/
def delete (ops : WorldOps) (disk : Disk) (functions : Registry)
    (instance_id : String) : Option WError × Disk × Registry :=
  match ProccesContainer.load ops disk instance_id with
  | .error e => (some e, disk, functions)
  | .ok func_proc =>
    match ProccesContainer.cleanup disk func_proc.bundle
        (ops.removeOk instance_id) with
    | .error e => (some e, disk, functions)
    | .ok disk2 => (none, disk2, aerase functions instance_id)

/-- The loop body of delete_all: delete each snapshotted key in order,
propagating the first failure (the question-mark operator) and stopping
there. -/
def deleteKeys (ops : WorldOps) :
    Disk → Registry → List String → Option WError × Disk × Registry
  | disk, functions, [] => (none, disk, functions)
  | disk, functions, key :: keys =>
    match delete ops disk functions key with
    | (some e, disk2, fns2) => (some e, disk2, fns2)
    | (none, disk2, fns2) => deleteKeys ops disk2 fns2 keys

/-- FunctionInvocations::delete_all: snapshot the current keys under the
read lock, then delete each sequentially. -/
def delete_all (ops : WorldOps) (disk : Disk) (functions : Registry) :
    Option WError × Disk × Registry :=
  deleteKeys ops disk functions (functions.map Prod.fst)

end FunctionInvocations

/-! ## Background reconciler (background.rs) -/

namespace BackgroundJob

/-- One observable step of the spawned loop in BackgroundJob::start:
a cancellation check (with its result), a sleep of the configured
duration, or the observation pass over the registry snapshot. -/
inductive BgEvent where
  | checkEv (result : Bool)
  | sleepEv (d : Nat)
  | observeEv (ids : List String)
  deriving DecidableEq

/-- The spawned task of BackgroundJob::start, as the time at which the
loop exits: while the token is not cancelled, sleep for the interval and
run the observation pass (instantaneous in the model); cancellation is
consulted only at the top of each iteration, at times 0, T, 2T, ....
Fuel bounds the number of iterations unfolded; the result is the exit
time. -/
def run (time : Nat) (cancelled : Nat → Bool) : Nat → Nat → Option Nat
  | _, 0 => none
  | now, fuel + 1 =>
    if cancelled now then some now
    else run time cancelled (now + time) fuel

/-- The event trace of the spawned task: each iteration emits exactly its
cancellation check, then (when the check saw no cancellation) the sleep
and the observation pass over the registry keys. -/
def trace (time : Nat) (cancelled : Nat → Bool) (ids : List String) :
    Nat → Nat → List BgEvent
  | _, 0 => []
  | now, fuel + 1 =>
    if cancelled now then [BgEvent.checkEv true]
    else BgEvent.checkEv false :: BgEvent.sleepEv time :: BgEvent.observeEv ids ::
      trace time cancelled ids (now + time) fuel

end BackgroundJob

/-! ## Worker RPC service (server/mod.rs) and configuration (config.rs) -/

/-- The RPC request of WorkerService::Execute (proto crate, external;
spec section 6 shows an opaque payload). The handler drops it
unexamined. -/
structure ExecuteRequest where
  payload : String
  deriving DecidableEq

/-- The RPC response of WorkerService::Execute: a status string and a
response string. -/
structure ExecuteResponse where
  status : String
  resp : String
  deriving DecidableEq

/-- The tonic error status the handler can produce (Status::internal with
a message). -/
inductive GrpcStatus where
  | internal (msg : String)
  deriving DecidableEq

namespace WorkerServer

/-- WorkerServer::execute: drop the request contents, dispatch to the
injected FunctionWorker with the hard-coded instance id "123", map any
dispatch error to Status::internal, and on success answer with the fixed
response. The worker trait object is modelled as a function from the
dispatched id to a result. -/
def execute (function_worker : String → Except String Unit)
    (_request : ExecuteRequest) : Except GrpcStatus ExecuteResponse :=
  match function_worker "123" with
  | .error e => .error (.internal ("Execution failed: " ++ e))
  | .ok _ => .ok ⟨"Ok", "Anwser"⟩

end WorkerServer

namespace ServerConfig

/-- Modelled from the spec: std's socket-address parsing (external): a
string parses when it ends in a colon-separated nonempty all-digit port
preceded by a nonempty host part. A valid input is returned as given. -/
def parseSocketAddr (s : String) : Option String :=
  let rev := s.data.reverse
  let port := (rev.takeWhile (fun c => c ≠ ':')).reverse
  match rev.dropWhile (fun c => c ≠ ':') with
  | ':' :: host_rev =>
    if port ≠ [] ∧ port.all Char.isDigit ∧ host_rev ≠ [] then some s else none
  | _ => none

/-- ServerConfig::from_env: read SERVER_ADDR (its value, when set, is the
argument), fall back to "[::1]:50003" when it is unset, and parse the
result as a socket address; a parse failure panics (expect), modelled as
none. -/
def from_env (server_addr : Option String) : Option String :=
  let addr := server_addr.getD "[::1]:50003"
  parseSocketAddr addr

end ServerConfig

/-! ## Map lemmas -/

theorem alookup_ainsert_self {α : Type} (l : List (String × α)) (key : String)
    (v : α) : alookup (ainsert l key v) key = some v := by
  simp [ainsert, alookup]

theorem alookup_aerase_ne {α : Type} (l : List (String × α)) {key k : String}
    (h : key ≠ k) : alookup (aerase l k) key = alookup l key := by
  have h0 : k ≠ key := fun hk => h hk.symm
  induction l with
  | nil => rfl
  | cons p rest ih =>
    by_cases h1 : p.1 = k
    · have h2 : p.1 ≠ key := by
        intro hk
        exact h (by rw [← hk, h1])
      simp [aerase, alookup, h1, h2, h0, ih]
    · by_cases h2 : p.1 = key
      · simp [aerase, alookup, h1, h2, h0, h, ih]
      · simp [aerase, alookup, h1, h2, h0, ih]

theorem alookup_ainsert_ne {α : Type} (l : List (String × α)) {key k : String}
    (v : α) (h : key ≠ k) : alookup (ainsert l k v) key = alookup l key := by
  have h1 : k ≠ key := fun hk => h hk.symm
  simp [ainsert, alookup, h1, alookup_aerase_ne l h]

theorem alookup_aerase_self {α : Type} (l : List (String × α)) (key : String) :
    alookup (aerase l key) key = none := by
  induction l with
  | nil => rfl
  | cons p rest ih =>
    by_cases h1 : p.1 = key
    · simp [aerase, h1, ih]
    · simp [aerase, alookup, h1, ih]

theorem alookup_eq_none_of_not_mem_keys {α : Type} {l : List (String × α)}
    {key : String} (h : key ∉ l.map Prod.fst) : alookup l key = none := by
  induction l with
  | nil => rfl
  | cons p rest ih =>
    simp only [List.map_cons, List.mem_cons] at h
    push_neg at h
    have h1 : p.1 ≠ key := fun hk => h.1 hk.symm
    simp [alookup, h1, ih h.2]

theorem aerase_eq_of_alookup_none {α : Type} {l : List (String × α)}
    {key : String} (h : alookup l key = none) : aerase l key = l := by
  induction l with
  | nil => rfl
  | cons p rest ih =>
    by_cases h1 : p.1 = key
    · simp [alookup, h1] at h
    · simp only [alookup, h1, if_neg] at h
      simp [aerase, h1, ih h]

theorem aerase_sublist {α : Type} (l : List (String × α)) (key : String) :
    (aerase l key).Sublist l := by
  induction l with
  | nil => simp [aerase]
  | cons p rest ih =>
    by_cases h1 : p.1 = key
    · simp only [aerase, h1, if_pos]
      exact ih.cons p
    · simp only [aerase, h1, if_neg, not_false_iff]
      exact ih.cons₂ p

theorem aerase_keys_nodup {α : Type} {l : List (String × α)} (key : String)
    (h : (l.map Prod.fst).Nodup) : ((aerase l key).map Prod.fst).Nodup :=
  h.sublist ((aerase_sublist l key).map Prod.fst)

theorem aerase_length_of_isSome {α : Type} {l : List (String × α)}
    {key : String} (hnd : (l.map Prod.fst).Nodup)
    (h : (alookup l key).isSome) : (aerase l key).length + 1 = l.length := by
  induction l with
  | nil => simp [alookup] at h
  | cons p rest ih =>
    simp only [List.map_cons, List.nodup_cons] at hnd
    by_cases h1 : p.1 = key
    · have hrest : alookup rest key = none :=
        alookup_eq_none_of_not_mem_keys (h1 ▸ hnd.1)
      simp [aerase, h1, aerase_eq_of_alookup_none hrest]
    · simp only [alookup, h1, if_neg, not_false_iff] at h
      simp [aerase, h1, ← ih hnd.2 h]

theorem mem_aerase {α : Type} {l : List (String × α)} {key : String}
    {p : String × α} : p ∈ aerase l key ↔ p ∈ l ∧ p.1 ≠ key := by
  induction l with
  | nil => simp [aerase]
  | cons q rest ih =>
    by_cases h1 : q.1 = key
    · constructor
      · intro hp
        simp only [aerase, h1, if_pos] at hp
        have := ih.mp hp
        exact ⟨List.mem_cons_of_mem q this.1, this.2⟩
      · intro hp
        rcases List.mem_cons.mp hp.1 with hq | hq
        · exact absurd (hq ▸ h1) hp.2
        · simp only [aerase, h1, if_pos]
          exact ih.mpr ⟨hq, hp.2⟩
    · constructor
      · intro hp
        simp only [aerase, h1, if_neg, not_false_iff] at hp
        rcases List.mem_cons.mp hp with hq | hq
        · exact ⟨hq ▸ List.mem_cons_self q rest, hq ▸ h1⟩
        · have := ih.mp hq
          exact ⟨List.mem_cons_of_mem q this.1, this.2⟩
      · intro hp
        simp only [aerase, h1, if_neg, not_false_iff]
        rcases List.mem_cons.mp hp.1 with hq | hq
        · rw [hq]
          exact List.mem_cons_self q (aerase rest key)
        · exact List.mem_cons_of_mem q (ih.mpr ⟨hq, hp.2⟩)

/-! ## Shape lemmas for delete and delete_all -/

theorem delete_eq_cases (ops : WorldOps) (disk : Disk) (functions : Registry)
    (instance_id : String) :
    (FunctionInvocations.delete ops disk functions instance_id
        = (none, aerase disk (get_instence_path instance_id),
           aerase functions instance_id)
      ∧ (alookup disk (get_instence_path instance_id)).isSome)
    ∨ (∃ e, FunctionInvocations.delete ops disk functions instance_id
        = (some e, disk, functions)) := by
  unfold FunctionInvocations.delete ProccesContainer.load ProccesContainer.cleanup
  by_cases hd : (alookup disk (get_instence_path instance_id)).isSome
  · by_cases hs : ops.status instance_id = ContainerStatus.running
    · by_cases hr : ops.removeOk instance_id
      · left
        exact ⟨by simp [hd, hs, hr], hd⟩
      · right
        exact ⟨.ioFailure, by simp [hd, hs, hr]⟩
    · by_cases hst : ops.startOk instance_id
      · by_cases hr : ops.removeOk instance_id
        · left
          exact ⟨by simp [hd, hs, hst, hr], hd⟩
        · right
          exact ⟨.ioFailure, by simp [hd, hs, hst, hr]⟩
      · right
        exact ⟨.sandboxStartFailure, by simp [hd, hs, hst]⟩
  · right
    exact ⟨.notFound, by simp [hd]⟩

theorem delete_failure_frame {ops : WorldOps} {disk : Disk} {functions : Registry}
    {instance_id : String} {e : WError}
    (h : (FunctionInvocations.delete ops disk functions instance_id).1 = some e) :
    FunctionInvocations.delete ops disk functions instance_id
      = (some e, disk, functions) := by
  rcases delete_eq_cases ops disk functions instance_id with ⟨heq, _⟩ | ⟨e2, heq⟩
  · rw [heq] at h
    simp at h
  · rw [heq] at h ⊢
    simp at h
    rw [h]

theorem delete_success_shape {ops : WorldOps} {disk : Disk} {functions : Registry}
    {instance_id : String} {d2 : Disk} {m2 : Registry}
    (h : FunctionInvocations.delete ops disk functions instance_id
        = (none, d2, m2)) :
    d2 = aerase disk (get_instence_path instance_id)
      ∧ m2 = aerase functions instance_id
      ∧ (alookup disk (get_instence_path instance_id)).isSome := by
  rcases delete_eq_cases ops disk functions instance_id with ⟨heq, hsome⟩ | ⟨e2, heq⟩
  · rw [heq] at h
    injection h with h1 h2
    injection h2 with h2 h3
    exact ⟨h2.symm, h3.symm, hsome⟩
  · rw [heq] at h
    simp at h

theorem deleteKeys_none_registry (ops : WorldOps) (keys : List String) :
    ∀ (disk : Disk) (functions : Registry),
      (FunctionInvocations.deleteKeys ops disk functions keys).1 = none →
      (∀ p ∈ functions, p.1 ∈ keys) →
      (FunctionInvocations.deleteKeys ops disk functions keys).2.2 = [] := by
  induction keys with
  | nil =>
    intro disk functions _ hall
    have hnil : functions = [] := by
      cases functions with
      | nil => rfl
      | cons p rest => exact absurd (hall p (List.mem_cons_self p rest)) (by simp)
    simp [FunctionInvocations.deleteKeys, hnil]
  | cons k keys ih =>
    intro disk functions h hall
    rcases hcase : FunctionInvocations.delete ops disk functions k with ⟨err, d2, m2⟩
    cases err with
    | some e =>
      rw [FunctionInvocations.deleteKeys, hcase] at h
      simp at h
    | none =>
      have hm2 : m2 = aerase functions k := (delete_success_shape hcase).2.1
      have hstep : FunctionInvocations.deleteKeys ops disk functions (k :: keys)
          = FunctionInvocations.deleteKeys ops d2 m2 keys := by
        rw [FunctionInvocations.deleteKeys, hcase]
      rw [hstep] at h ⊢
      refine ih d2 m2 h ?_
      intro p hp
      rw [hm2] at hp
      have hmem := mem_aerase.mp hp
      have := hall p hmem.1
      rcases List.mem_cons.mp this with hk | hk
      · exact absurd hk hmem.2
      · exact hk

theorem deleteKeys_none_disk_length (ops : WorldOps) (keys : List String) :
    ∀ (disk : Disk) (functions : Registry),
      (disk.map Prod.fst).Nodup →
      (FunctionInvocations.deleteKeys ops disk functions keys).1 = none →
      (FunctionInvocations.deleteKeys ops disk functions keys).2.1.length
        + keys.length = disk.length := by
  induction keys with
  | nil =>
    intro disk functions _ _
    simp [FunctionInvocations.deleteKeys]
  | cons k keys ih =>
    intro disk functions hnd h
    rcases hcase : FunctionInvocations.delete ops disk functions k with ⟨err, d2, m2⟩
    cases err with
    | some e =>
      rw [FunctionInvocations.deleteKeys, hcase] at h
      simp at h
    | none =>
      have hshape := delete_success_shape hcase
      have hstep : FunctionInvocations.deleteKeys ops disk functions (k :: keys)
          = FunctionInvocations.deleteKeys ops d2 m2 keys := by
        rw [FunctionInvocations.deleteKeys, hcase]
      rw [hstep] at h ⊢
      have hlen : d2.length + 1 = disk.length := by
        rw [hshape.1]
        exact aerase_length_of_isSome hnd hshape.2.2
      have hnd2 : (d2.map Prod.fst).Nodup := by
        rw [hshape.1]
        exact aerase_keys_nodup _ hnd
      have := ih d2 m2 hnd2 h
      rw [List.length_cons]
      omega

theorem deleteKeys_some_keeps (ops : WorldOps) (keys : List String) :
    ∀ (disk : Disk) (functions : Registry) (e : WError),
      keys.Nodup →
      (FunctionInvocations.deleteKeys ops disk functions keys).1 = some e →
      ∃ pre key post, keys = pre ++ key :: post ∧
        ∀ k2 ∈ key :: post,
          alookup (FunctionInvocations.deleteKeys ops disk functions keys).2.2 k2
            = alookup functions k2 := by
  induction keys with
  | nil =>
    intro disk functions e _ h
    simp [FunctionInvocations.deleteKeys] at h
  | cons k keys ih =>
    intro disk functions e hnd h
    rcases hcase : FunctionInvocations.delete ops disk functions k with ⟨err, d2, m2⟩
    cases err with
    | some e2 =>
      have hframe : m2 = functions := by
        have h1 : (FunctionInvocations.delete ops disk functions k).1 = some e2 := by
          rw [hcase]
        have := delete_failure_frame h1
        rw [hcase] at this
        injection this with _ h2
        injection h2 with _ h3
      refine ⟨[], k, keys, rfl, ?_⟩
      intro k2 _
      rw [FunctionInvocations.deleteKeys, hcase, hframe]
    | none =>
      have hm2 : m2 = aerase functions k := (delete_success_shape hcase).2.1
      have hstep : FunctionInvocations.deleteKeys ops disk functions (k :: keys)
          = FunctionInvocations.deleteKeys ops d2 m2 keys := by
        rw [FunctionInvocations.deleteKeys, hcase]
      rw [hstep] at h ⊢
      rcases ih d2 m2 e (List.Nodup.of_cons hnd) h with ⟨pre, key, post, hkeys, hkeep⟩
      refine ⟨k :: pre, key, post, by rw [hkeys, List.cons_append], ?_⟩
      intro k2 hk2
      have hne : k2 ≠ k := by
        intro hkk
        have hk2mem : k2 ∈ keys := by
          rw [hkeys]
          rcases List.mem_cons.mp hk2 with hkey | hpost
          · rw [hkey]
            exact List.mem_append_right pre (List.mem_cons_self key post)
          · exact List.mem_append_right pre (List.mem_cons_of_mem key hpost)
        exact (List.nodup_cons.mp hnd).1 (hkk ▸ hk2mem)
      rw [hkeep k2 hk2, hm2, alookup_aerase_ne functions hne]

/-! ## Claim theorems -/

/-- C1: after insert(id, url), get(id) returns an Invocation whose
endpoint equals url; insert constructs and stores the new Invocation
unconditionally (overwriting any prior entry for id rather than failing
or merging), and that entry persists across inserts and deletes for any
other id. -/
theorem insert_get_overwrite_persist (functions : Registry) (id url : String) :
    FunctionInvocations.get
        (FunctionInvocations.insert functions id url).1 id = some ⟨url⟩
    ∧ (FunctionInvocations.insert functions id url).2 = ⟨url⟩
    ∧ (∀ (m : Registry) (id2 url2 : String), id2 ≠ id →
        FunctionInvocations.get (FunctionInvocations.insert m id2 url2).1 id
          = FunctionInvocations.get m id)
    ∧ (∀ (ops : WorldOps) (disk : Disk) (m : Registry) (id2 : String), id2 ≠ id →
        FunctionInvocations.get
            (FunctionInvocations.delete ops disk m id2).2.2 id
          = FunctionInvocations.get m id) := by
  refine ⟨?_, rfl, ?_, ?_⟩
  · exact alookup_ainsert_self functions id ⟨url⟩
  · intro m id2 url2 hne
    exact alookup_ainsert_ne m ⟨url2⟩ (fun hk => hne hk.symm)
  · intro ops disk m id2 hne
    rcases delete_eq_cases ops disk m id2 with ⟨heq, _⟩ | ⟨e, heq⟩
    · rw [heq]
      exact alookup_aerase_ne m (fun hk => hne hk.symm)
    · rw [heq]

/-- C1 witness: concrete instances of the hypothesized conjuncts of
insert_get_overwrite_persist. -/
theorem insert_get_overwrite_persist_witness :
    ("b" : String) ≠ "a"
    ∧ FunctionInvocations.get
        (FunctionInvocations.insert
          (FunctionInvocations.insert [] "a" "unix://x").1 "b" "unix://y").1 "a"
      = FunctionInvocations.get
          (FunctionInvocations.insert [] "a" "unix://x").1 "a" :=
  ⟨by decide,
   (insert_get_overwrite_persist [] "a" "unix://x").2.2.1
     (FunctionInvocations.insert [] "a" "unix://x").1 "b" "unix://y"
     (by decide)⟩

/-- C2: when the resolved bundle path for an instance id already exists
on disk, create_rootfs fails with AlreadyExists and the disk state is
returned unchanged — the existence check precedes every write. -/
theorem create_rootfs_already_exists (disk : Disk) (instance_id : String)
    (handle_bin : FsTree) (sys_user : SysUserParms)
    (h : (alookup disk (get_instence_path instance_id)).isSome) :
    ProccesContainer.create_rootfs disk instance_id handle_bin sys_user
      = (.error .alreadyExists, disk) := by
  simp [ProccesContainer.create_rootfs, h]

/-- C2 witness: a disk already holding the bundle path of instance "abc"
makes create_rootfs fail with AlreadyExists and leave the disk as it
was. -/
theorem create_rootfs_already_exists_witness :
    (alookup [(get_instence_path "abc", FsTree.dir [])]
        (get_instence_path "abc")).isSome
    ∧ ProccesContainer.create_rootfs [(get_instence_path "abc", FsTree.dir [])]
        "abc" (.dir []) ⟨0, 0⟩
      = (.error .alreadyExists, [(get_instence_path "abc", FsTree.dir [])]) :=
  ⟨by simp [alookup],
   create_rootfs_already_exists [(get_instence_path "abc", FsTree.dir [])]
     "abc" (.dir []) ⟨0, 0⟩ (by simp [alookup])⟩

/-- C4: delete(id) for an instance whose bundle does not exist on disk
(never provisioned or already deleted) fails with NotFound and returns
disk and registry unchanged; and whenever delete fails for any reason —
reattach or cleanup — the registry is left entirely unchanged: the entry
for id (if any) is retained and every other entry is untouched. -/
theorem delete_notfound_and_failure_preserves (ops : WorldOps) (disk : Disk)
    (functions : Registry) (instance_id : String) :
    (alookup disk (get_instence_path instance_id) = none →
      FunctionInvocations.delete ops disk functions instance_id
        = (some .notFound, disk, functions))
    ∧ (∀ e, (FunctionInvocations.delete ops disk functions instance_id).1 = some e →
        (FunctionInvocations.delete ops disk functions instance_id).2.2
          = functions) := by
  constructor
  · intro h
    simp [FunctionInvocations.delete, ProccesContainer.load, h]
  · intro e h
    rw [delete_failure_frame h]

/-- C4 witness: deleting instance "ghost" from an empty disk fails with
NotFound and leaves the (nonempty) registry untouched. -/
theorem delete_notfound_and_failure_preserves_witness :
    alookup ([] : Disk) (get_instence_path "ghost") = none
    ∧ FunctionInvocations.delete
        ⟨fun _ => .running, fun _ => true, fun _ => true⟩ []
        [("other", ⟨"unix://o"⟩)] "ghost"
      = (some .notFound, [], [("other", ⟨"unix://o"⟩)]) :=
  ⟨rfl,
   (delete_notfound_and_failure_preserves
     ⟨fun _ => .running, fun _ => true, fun _ => true⟩ []
     [("other", ⟨"unix://o"⟩)] "ghost").1 rfl⟩

/-- C5: delete_all snapshots the registry keys and deletes them
sequentially through delete; on full success over a registry with N
entries the registry ends empty and N bundle directories are removed
from the disk; on a failure it stops there, and the failing key together
with every later snapshotted key is still present, bound exactly as
before. -/
theorem delete_all_sequential (ops : WorldOps) (disk : Disk)
    (functions : Registry) :
    FunctionInvocations.delete_all ops disk functions
      = FunctionInvocations.deleteKeys ops disk functions
          (functions.map Prod.fst)
    ∧ ((FunctionInvocations.delete_all ops disk functions).1 = none →
        (FunctionInvocations.delete_all ops disk functions).2.2 = [])
    ∧ ((disk.map Prod.fst).Nodup →
        (FunctionInvocations.delete_all ops disk functions).1 = none →
        (FunctionInvocations.delete_all ops disk functions).2.1.length
          + functions.length = disk.length)
    ∧ (∀ e, (functions.map Prod.fst).Nodup →
        (FunctionInvocations.delete_all ops disk functions).1 = some e →
        ∃ pre key post, functions.map Prod.fst = pre ++ key :: post ∧
          ∀ k2 ∈ key :: post,
            alookup (FunctionInvocations.delete_all ops disk functions).2.2 k2
              = alookup functions k2) := by
  refine ⟨rfl, ?_, ?_, ?_⟩
  · intro h
    exact deleteKeys_none_registry ops _ disk functions h
      (fun p hp => List.mem_map_of_mem Prod.fst hp)
  · intro hnd h
    have := deleteKeys_none_disk_length ops (functions.map Prod.fst)
      disk functions hnd h
    rwa [List.length_map] at this
  · intro e hnd h
    exact deleteKeys_some_keeps ops (functions.map Prod.fst) disk functions e hnd h

/-- C5 witness: a registry with two entries over a disk holding both
bundles, with no injected failures, delete_all succeeds, empties the
registry and removes both bundle directories. -/
theorem delete_all_sequential_witness :
    (([(get_instence_path "a", FsTree.dir []),
       (get_instence_path "b", FsTree.dir [])].map
        (Prod.fst (α := String) (β := FsTree))).Nodup
      ∧ (FunctionInvocations.delete_all
          ⟨fun _ => .running, fun _ => true, fun _ => true⟩
          [(get_instence_path "a", FsTree.dir []),
           (get_instence_path "b", FsTree.dir [])]
          [("a", ⟨"unix://a"⟩), ("b", ⟨"unix://b"⟩)]).1 = none)
    ∧ (FunctionInvocations.delete_all
          ⟨fun _ => .running, fun _ => true, fun _ => true⟩
          [(get_instence_path "a", FsTree.dir []),
           (get_instence_path "b", FsTree.dir [])]
          [("a", ⟨"unix://a"⟩), ("b", ⟨"unix://b"⟩)]).2.1.length
        + ([("a", ⟨"unix://a"⟩), ("b", ⟨"unix://b"⟩)] : Registry).length
      = ([(get_instence_path "a", FsTree.dir []),
          (get_instence_path "b", FsTree.dir [])] : Disk).length :=
  ⟨⟨by decide, by rfl⟩,
   (delete_all_sequential
     ⟨fun _ => .running, fun _ => true, fun _ => true⟩
     [(get_instence_path "a", FsTree.dir []),
      (get_instence_path "b", FsTree.dir [])]
     [("a", ⟨"unix://a"⟩), ("b", ⟨"unix://b"⟩)]).2.2.1 (by decide) (by rfl)⟩

/-- C3: try_from_with_ops loads the sandbox description; when the loaded
status is running the handle is returned as-is with start invoked zero
times; for any other status start is invoked exactly once. -/
theorem try_from_start_policy (ops : ProccesContainer.ContainerOps)
    (value : String) (container : MContainer)
    (h : ops.load_container value = .ok container) :
    (container.status = .running →
      ProccesContainer.try_from_with_ops ops value = (.ok container, 0))
    ∧ (container.status ≠ .running →
      (ProccesContainer.try_from_with_ops ops value).2 = 1) := by
  unfold ProccesContainer.try_from_with_ops
  rw [h]
  constructor
  · intro hs
    simp [hs]
  · intro hs
    simp only [hs, ne_eq, not_false_iff, if_true]
    cases hst : ops.start_container container <;> simp [hst]

/-- C3 witness: loading a stopped container invokes start exactly
once. -/
theorem try_from_start_policy_witness :
    (MContainer.mk "/b" .stopped).status ≠ ContainerStatus.running
    ∧ (ProccesContainer.try_from_with_ops
        ⟨fun _ => Except.ok ⟨"/b", ContainerStatus.stopped⟩,
         fun c => Except.ok ⟨c.bundle, ContainerStatus.running⟩⟩ "/b").2 = 1 :=
  ⟨by decide,
   (try_from_start_policy
     ⟨fun _ => Except.ok ⟨"/b", ContainerStatus.stopped⟩,
      fun c => Except.ok ⟨c.bundle, ContainerStatus.running⟩⟩
     "/b" ⟨"/b", ContainerStatus.stopped⟩ rfl).2 (by decide)⟩

theorem parseUrl_unix (s : String) (tail : List Char)
    (h : s.data = 'u' :: 'n' :: 'i' :: 'x' :: ':' :: '/' :: '/' :: tail) :
    ProccesContainer.parseUrl s = some s := by
  unfold ProccesContainer.parseUrl
  rw [h]
  simp [ProccesContainer.schemeChars]

/-- C6: get_url derives exactly unix://<bundle-path>/rootfs/run/app.sock
from the container's bundle path — in particular for bundle path
/var/lib/x/run/abc123 it returns exactly
unix:///var/lib/x/run/abc123/rootfs/run/app.sock — as a pure
computation that can fail only at URL parsing (and the formatted string
always carries a unix scheme, so it parses). -/
theorem get_url_format (bundle : String) :
    ProccesContainer.get_url bundle
      = .ok ("unix://" ++ bundle ++ "/rootfs/run/app.sock")
    ∧ ProccesContainer.get_url "/var/lib/x/run/abc123"
      = .ok "unix:///var/lib/x/run/abc123/rootfs/run/app.sock" := by
  constructor
  · have hdata : ("unix://" ++ bundle ++ "/rootfs/run/app.sock").data
        = 'u' :: 'n' :: 'i' :: 'x' :: ':' :: '/' :: '/'
          :: (bundle.data ++ "/rootfs/run/app.sock".data) := by
      rw [String.data_append, String.data_append, List.append_assoc]
      rfl
    unfold ProccesContainer.get_url
    simp only [parseUrl_unix ("unix://" ++ bundle ++ "/rootfs/run/app.sock") _ hdata]
  · rfl

/-- C7: for an instance id whose bundle path does not yet exist,
create_rootfs succeeds with the resolved path, and the disk afterwards
holds, under that path, a bundle with exactly config.json (the
serialized runtime spec), rootfs/app mirroring the handler tree, and an
empty rootfs/run. -/
theorem create_rootfs_fresh (disk : Disk) (instance_id : String)
    (handle_bin : FsTree) (sys_user : SysUserParms)
    (h : alookup disk (get_instence_path instance_id) = none) :
    ProccesContainer.create_rootfs disk instance_id handle_bin sys_user
      = (.ok (get_instence_path instance_id),
         ainsert disk (get_instence_path instance_id)
           (.dir [("config.json",
              .file (serde_json_to_vec_pretty (get_spec sys_user))),
             ("rootfs", .dir [("app", copy_dir_all handle_bin),
               ("run", .dir [])])]))
    ∧ alookup (ProccesContainer.create_rootfs disk instance_id handle_bin
          sys_user).2 (get_instence_path instance_id)
      = some (.dir [("config.json",
          .file (serde_json_to_vec_pretty (get_spec sys_user))),
          ("rootfs", .dir [("app", copy_dir_all handle_bin),
            ("run", .dir [])])]) := by
  have h1 : (alookup disk (get_instence_path instance_id)).isSome = false := by
    rw [h]
    rfl
  have hmain : ProccesContainer.create_rootfs disk instance_id handle_bin sys_user
      = (.ok (get_instence_path instance_id),
         ainsert disk (get_instence_path instance_id)
           (.dir [("config.json",
              .file (serde_json_to_vec_pretty (get_spec sys_user))),
             ("rootfs", .dir [("app", copy_dir_all handle_bin),
               ("run", .dir [])])])) := by
    unfold ProccesContainer.create_rootfs
    simp only [h1, Bool.false_eq_true, if_false]
    rfl
  refine ⟨hmain, ?_⟩
  rw [hmain]
  exact alookup_ainsert_self disk (get_instence_path instance_id) _

/-- C7 witness: provisioning instance "w" on an empty disk produces the
three-entry bundle. -/
theorem create_rootfs_fresh_witness :
    alookup ([] : Disk) (get_instence_path "w") = none
    ∧ alookup (ProccesContainer.create_rootfs [] "w"
          (.dir [("handler", .file "bin")]) ⟨7, 8⟩).2 (get_instence_path "w")
      = some (.dir [("config.json",
          .file (serde_json_to_vec_pretty (get_spec ⟨7, 8⟩))),
          ("rootfs", .dir [("app", copy_dir_all (.dir [("handler", .file "bin")])),
            ("run", .dir [])])]) :=
  ⟨rfl,
   (create_rootfs_fresh [] "w" (.dir [("handler", .file "bin")]) ⟨7, 8⟩ rfl).2⟩

/-- C8 counterexample: when SERVER_ADDR is absent, configuration loading
is not fatal — it falls back to the default address [::1]:50003. -/
theorem from_env_absent_not_fatal :
    ServerConfig.from_env none = some "[::1]:50003"
    ∧ ServerConfig.from_env none ≠ none :=
  ⟨rfl, by decide⟩

/-- C8 (amended): an absent SERVER_ADDR falls back to the default
address [::1]:50003; a present but malformed value is a fatal startup
error (the parse panics); a present well-formed value is used as the
listen address. -/
theorem from_env_spec :
    ServerConfig.from_env none = some "[::1]:50003"
    ∧ (∀ s, ServerConfig.parseSocketAddr s = none →
        ServerConfig.from_env (some s) = none)
    ∧ (∀ s v, ServerConfig.parseSocketAddr s = some v →
        ServerConfig.from_env (some s) = some v) := by
  refine ⟨rfl, ?_, ?_⟩
  · intro s hs
    exact hs
  · intro s v hs
    exact hs

/-- C8 witness: the value not-an-address is malformed and fatal, while
the well-formed value 127.0.0.1:8080 is accepted as given. -/
theorem from_env_spec_witness :
    (ServerConfig.parseSocketAddr "not-an-address" = none
      ∧ ServerConfig.from_env (some "not-an-address") = none)
    ∧ (ServerConfig.parseSocketAddr "127.0.0.1:8080" = some "127.0.0.1:8080"
      ∧ ServerConfig.from_env (some "127.0.0.1:8080")
          = some "127.0.0.1:8080") :=
  ⟨⟨rfl, from_env_spec.2.1 "not-an-address" rfl⟩,
   ⟨rfl, from_env_spec.2.2 "127.0.0.1:8080" "127.0.0.1:8080" rfl⟩⟩

/-- C9: the background loop consults cancellation exactly once per
iteration, at the top before the sleep and never during it — an
iteration starting at time s with the token not yet cancelled emits
check, sleep, observation pass, and checks again only at s + T; hence a
cancellation issued right after the check at s (so visible by s + T)
terminates the task at exactly s + T: within one further interval, not
immediately. -/
theorem background_cancellation_latency (time : Nat) (cancelled : Nat → Bool)
    (ids : List String) (s fuel : Nat)
    (h0 : cancelled s = false) (h1 : cancelled (s + time) = true) :
    BackgroundJob.run time cancelled s (fuel + 2) = some (s + time)
    ∧ BackgroundJob.trace time cancelled ids s (fuel + 2)
      = [.checkEv false, .sleepEv time, .observeEv ids, .checkEv true] := by
  constructor
  · simp [BackgroundJob.run, h0, h1]
  · simp [BackgroundJob.trace, h0, h1]

/-- C9 witness: with interval 5 and cancellation issued at time 1 (right
after the iteration-start check at time 0), the loop exits at time 5. -/
theorem background_cancellation_latency_witness :
    (fun t => decide (1 ≤ t)) 0 = false
    ∧ BackgroundJob.run 5 (fun t => decide (1 ≤ t)) 0 2 = some 5 :=
  ⟨rfl,
   (background_cancellation_latency 5 (fun t => decide (1 ≤ t)) [] 0 0
     rfl rfl).1⟩

/-- C10: the Execute handler's behaviour is independent of the incoming
request — it discards the request and depends only on the dispatch at
the fixed instance id "123"; a successful dispatch always yields the
response with status Ok and resp Anwser, and any dispatch failure is
mapped to an internal-error status. -/
theorem execute_request_independent
    (function_worker : String → Except String Unit) (r1 r2 : ExecuteRequest) :
    WorkerServer.execute function_worker r1
      = WorkerServer.execute function_worker r2
    ∧ (∀ g : String → Except String Unit, function_worker "123" = g "123" →
        WorkerServer.execute function_worker r1 = WorkerServer.execute g r2)
    ∧ (function_worker "123" = .ok () →
        WorkerServer.execute function_worker r1 = .ok ⟨"Ok", "Anwser"⟩)
    ∧ (∀ e, function_worker "123" = .error e →
        WorkerServer.execute function_worker r1
          = .error (.internal ("Execution failed: " ++ e))) := by
  refine ⟨rfl, ?_, ?_, ?_⟩
  · intro g hg
    unfold WorkerServer.execute
    rw [hg]
  · intro h
    unfold WorkerServer.execute
    rw [h]
  · intro e h
    unfold WorkerServer.execute
    rw [h]

/-- C10 witness: two different requests against a succeeding dispatcher
both get the fixed Ok / Anwser response. -/
theorem execute_request_independent_witness :
    ((fun _ => Except.ok ()) : String → Except String Unit) "123"
      = Except.ok ()
    ∧ WorkerServer.execute (fun _ => Except.ok ()) ⟨"payload-a"⟩
      = Except.ok ⟨"Ok", "Anwser"⟩ :=
  ⟨rfl,
   (execute_request_independent (fun _ => Except.ok ())
     ⟨"payload-a"⟩ ⟨"payload-b"⟩).2.2.1 rfl⟩

end NoctiForge
